import Mathlib

/-!
# Verification of the tapable `Hook` registration core

A shallow embedding of `src/lib/Hook.js` (the `Hook` class and the
registration-relevant parts of `HookCodeFactory`) together with proofs of
the specification claims about tap insertion ordering (`_insert`), the
interceptor `register` folds, `withOptions`, the registration error
contract, trampoline invalidation of the three dispatcher slots, and the
promise sync-leak guard of the generated dispatcher.

JavaScript values are modelled by `JSVal`; hooks by `HookState`; the
mutable `this.taps` array by a `List JSVal` updated exactly as the source's
index assignments do (including the transient duplication performed by the
backward walk of `_insert`).
-/

namespace Tapable

/-- A JavaScript value, as far as the registration paths of `Hook.js`
observe them: primitives, functions (identified by an opaque id), arrays
and plain objects (ordered own-property lists, in JS enumeration order).
JS numbers are modelled as integers; every numeric value the modelled code
paths manipulate (`stage` hints) is an integer in the source's tests and
docs. -/
inductive JSVal : Type where
  | vundefined : JSVal
  | vnull : JSVal
  | vbool (b : Bool) : JSVal
  | vnum (n : Int) : JSVal
  | vstr (s : String) : JSVal
  | vfun (id : Nat) : JSVal
  | varr (elems : List JSVal) : JSVal
  | vobj (fields : List (String × JSVal)) : JSVal

/-- JS `typeof v`, on the modelled values.  Note
`typeof null = "object"`, as in JS. -/
def jsTypeof : JSVal → String
  | .vundefined => "undefined"
  | .vnull => "object"
  | .vbool _ => "boolean"
  | .vnum _ => "number"
  | .vstr _ => "string"
  | .vfun _ => "function"
  | .varr _ => "object"
  | .vobj _ => "object"

/-- Property read `v[k]`, returning `undefined` for absent properties.
Arrays and strings expose their elements under decimal index keys.
(JS throws a `TypeError` when the base is `null`/`undefined`; no modelled
code path reads a property off those, so the model returns `undefined`
there.) -/
def getField (v : JSVal) (k : String) : JSVal :=
  match v with
  | .vobj fields => ((fields.find? (fun p => p.1 == k)).map Prod.snd).getD .vundefined
  | .varr elems => ((elems.enum.find? (fun p => toString p.1 == k)).map Prod.snd).getD .vundefined
  | .vstr s =>
      (((s.toList.enum.find? (fun p => toString p.1 == k)).map
        (fun p => JSVal.vstr (String.singleton p.2))).getD .vundefined)
  | _ => .vundefined

/-- Own enumerable string-keyed properties of a value, in enumeration
order, as `Object.assign` reads them from a source: objects yield their
fields, arrays and strings yield their indexed elements, and every other
primitive yields nothing. -/
def ownFields : JSVal → List (String × JSVal)
  | .vobj fields => fields
  | .varr elems => elems.enum.map (fun p => (toString p.1, p.2))
  | .vstr s => s.toList.enum.map (fun p => (toString p.1, JSVal.vstr (String.singleton p.2)))
  | _ => []

/-- Property write on an ordered field list, with JS semantics for
property order: an existing key keeps its position, a new key is appended. -/
def setField (fields : List (String × JSVal)) (k : String) (v : JSVal) :
    List (String × JSVal) :=
  if fields.any (fun p => p.1 == k) then
    fields.map (fun p => if p.1 == k then (p.1, v) else p)
  else fields ++ [(k, v)]

/-- JS `Object.assign(target, ...sources)`: copy each source's own enumerable
properties onto the target, left to right.  The modelled code paths only
ever pass a fresh object literal as the target. -/
def objAssign (target : JSVal) (sources : List JSVal) : JSVal :=
  match target with
  | .vobj fs =>
      .vobj (sources.foldl
        (fun acc src => (ownFields src).foldl (fun a p => setField a p.1 p.2) acc) fs)
  | t => t

/-- The SameValueZero comparison used by JS `Set#has`/`Set#delete`,
restricted to the values the insertion algorithm compares (tap names and
`before` entries, which are strings).  On primitives it is value equality;
objects, arrays and distinct functions compare by reference identity in
JS, which a structural model cannot witness, so they compare unequal here
— faithful to the fact that two separately constructed objects are
distinct `Set` members. -/
def sameValueZero : JSVal → JSVal → Bool
  | .vundefined, .vundefined => true
  | .vnull, .vnull => true
  | .vbool a, .vbool b => a == b
  | .vnum a, .vnum b => a == b
  | .vstr a, .vstr b => a == b
  | .vfun a, .vfun b => a == b
  | _, _ => false

/-- JS `Set#has`. -/
def setHas (s : List JSVal) (v : JSVal) : Bool :=
  s.any (fun w => sameValueZero w v)

/-- JS `Set#delete` (the algorithm only deletes after a successful `has`). -/
def setDelete (s : List JSVal) (v : JSVal) : List JSVal :=
  s.filter (fun w => !(sameValueZero w v))

/-- JS `new Set(iterable)`: insertion-ordered, SameValueZero-deduplicated. -/
def mkSet (l : List JSVal) : List JSVal :=
  l.foldl (fun acc v => if setHas acc v then acc else acc ++ [v]) []

/-- The neighbour stage read `x.stage || 0` of `_insert`'s backward walk: the neighbour's stage, a
number or absent in every modelled descriptor (a truthy non-number `stage`
would be kept by `||` and then compare `NaN`-ishly; the API documents
`stage` as a number, and no claim exercises anything else). -/
def stageOrZero (x : JSVal) : Int :=
  match getField x "stage" with
  | .vnum n => n
  | _ => 0

/-- The `stage` local of `_insert`: `item.stage` when it is a number
(`typeof item.stage === "number"`), else `0`. -/
def itemStage (item : JSVal) : Int :=
  match getField item "stage" with
  | .vnum n => n
  | _ => 0

/-- The `before` local of `_insert`: a fresh `Set` from a string or array
hint, and `undefined` (here `none`) otherwise. -/
def beforeInit (item : JSVal) : Option (List JSVal) :=
  match getField item "before" with
  | .vstr s => some [JSVal.vstr s]
  | .varr l => some (mkSet l)
  | _ => none

/-- JS array index assignment `taps[i] = v` for `i ≤ taps.length`: an
in-range write updates in place, a write one past the end appends.  (The
source never writes further past the end.) -/
def setOrPush (l : List JSVal) (i : Nat) (v : JSVal) : List JSVal :=
  if i < l.length then l.set i v else l ++ [v]

/-- The backward walk of `Hook._insert` (src/lib/Hook.js lines 213-246),
transcribed statement by statement.  `i` is the loop counter; at each step
the element at `i-1` is copied one slot to the right (so slots `i-1` and
`i` transiently hold the same descriptor), then the `before` set and the
stage comparison decide whether to keep walking, to stop after the
neighbour (`i++; break`), or — when the counter is exhausted — to store at
slot `0`. -/
def insertLoop (item : JSVal) (stage : Int) : Nat → Option (List JSVal) → List JSVal → List JSVal
  | 0, _, taps => setOrPush taps 0 item
  | i + 1, before, taps =>
    let x := taps.getD i .vundefined
    let taps1 := setOrPush taps (i + 1) x
    match before with
    | some s =>
      if setHas s (getField x "name") then
        insertLoop item stage i (some (setDelete s (getField x "name"))) taps1
      else if 0 < s.length then
        insertLoop item stage i (some s) taps1
      else if stage < stageOrZero x then
        insertLoop item stage i (some s) taps1
      else
        setOrPush taps1 (i + 1) item
    | none =>
      if stage < stageOrZero x then
        insertLoop item stage i none taps1
      else
        setOrPush taps1 (i + 1) item

/-- The index at which `insertLoop` finally stores `item`: the same walk,
reading only the untouched prefix of the array, computing the position
instead of performing the shifts. -/
def insertLoopPos (stage : Int) : Nat → Option (List JSVal) → List JSVal → Nat
  | 0, _, _ => 0
  | i + 1, before, taps =>
    let x := taps.getD i .vundefined
    match before with
    | some s =>
      if setHas s (getField x "name") then
        insertLoopPos stage i (some (setDelete s (getField x "name"))) taps
      else if 0 < s.length then
        insertLoopPos stage i (some s) taps
      else if stage < stageOrZero x then
        insertLoopPos stage i (some s) taps
      else
        i + 1
    | none =>
      if stage < stageOrZero x then
        insertLoopPos stage i none taps
      else
        i + 1

/-- The effect of `Hook._insert` restricted to its effect on the `taps` array (the
method also resets the compiled dispatchers; see `hookInsert`). -/
def hookInsertTaps (taps : List JSVal) (item : JSVal) : List JSVal :=
  insertLoop item (itemStage item) taps.length (beforeInit item) taps

/-- One of the three dispatcher slots of a hook: either the regenerating
trampoline (`CALL_DELEGATE` / `CALL_ASYNC_DELEGATE` / `PROMISE_DELEGATE`,
which the constructor also stores in the never-reassigned backup fields
`_call`/`_callAsync`/`_promise`), or a dispatcher synthesized by
`_createCall(type)` — a freshly created function, hence never equal to the
trampoline. -/
inductive Slot : Type where
  | trampoline : Slot
  | compiled (t : String) : Slot
deriving DecidableEq

/-- An interceptor descriptor, restricted to the field the registration
paths consult: `register`, a function from a tap descriptor to a value
(possibly `undefined`), or absent.  `call`/`tap`/`loop`/`context` only
matter at invocation time and are not read by any modelled path;
`intercept` stores `Object.assign({}, interceptor)`, a shallow copy, which
on this one-field record is the record itself. -/
structure Interceptor : Type where
  register : Option (JSVal → JSVal)

/-- The state of a `Hook` instance: constructor arguments, the ordered tap
descriptor list, the interceptor list, and the three dispatcher slots.
(`_x`, the function array materialized by the factory's `setup`, is not
consulted by any registration-path claim.) -/
structure HookState : Type where
  args : List String
  name : JSVal
  taps : List JSVal
  interceptors : List Interceptor
  call : Slot
  callAsync : Slot
  promise : Slot

/-- Constructor `new Hook(args, name)`: empty taps and interceptors, all three
dispatcher slots holding their trampolines. -/
def mkHook (args : List String) (name : JSVal) : HookState :=
  { args := args, name := name, taps := [], interceptors := [],
    call := .trampoline, callAsync := .trampoline, promise := .trampoline }

/-- Method `Hook._resetCompilation`: restore the three dispatcher slots from the
backup fields, which always hold the trampolines. -/
def resetCompilation (h : HookState) : HookState :=
  { h with call := .trampoline, callAsync := .trampoline, promise := .trampoline }

/-- The JS comparison `v === undefined`. -/
def isUndefined : JSVal → Bool
  | .vundefined => true
  | _ => false

/-- The JS comparison `v === null`. -/
def isNull : JSVal → Bool
  | .vnull => true
  | _ => false

/-- Method `Hook._insert`: reset the compiled dispatchers, then place `item` into
`taps` by the backward walk. -/
def hookInsert (h : HookState) (item : JSVal) : HookState :=
  let h1 := resetCompilation h
  { h1 with taps := hookInsertTaps h1.taps item }

/-- Method `Hook._runRegisterInterceptors`: fold the interceptor list in
registration order over the descriptor; a `register` return value replaces
the running descriptor unless it is `undefined`. -/
def runRegisterInterceptors (interceptors : List Interceptor) (options : JSVal) : JSVal :=
  interceptors.foldl
    (fun opts it =>
      match it.register with
      | none => opts
      | some reg =>
        let newOptions := reg opts
        if isUndefined newOptions then opts else newOptions)
    options

/-- The `name` validation of `Hook._tap`:
`typeof options.name !== "string" || options.name === ""` throws. -/
def validTapName (options : JSVal) : Bool :=
  match getField options "name" with
  | .vstr s => s ≠ ""
  | _ => false

/-- The string-wrapping step of `Hook._tap`: a bare string becomes
`{ name: options }`. -/
def wrapStringOptions (options : JSVal) : JSVal :=
  match options with
  | .vstr s => .vobj [("name", .vstr s)]
  | o => o

/-- The two usage errors `Hook._tap` can throw. -/
inductive TapError : Type where
  | invalidOptions : TapError
  | missingName : TapError
deriving DecidableEq

/-- Outcome of `Hook._tap`: either a thrown usage error together with the
hook state at the moment of the throw, or the updated state. -/
inductive TapResult : Type where
  | thrown (e : TapError) (h : HookState) : TapResult
  | ok (h : HookState) : TapResult

/-- Method `Hook._tap(type, options, fn)` (src/lib/Hook.js lines 101-118),
transcribed in order: wrap a bare string, reject non-objects, reject a
missing/empty `name`, merge `{type, fn}` under the user options, run the
registration-time interceptor fold, insert.  (`deprecateContext()` only
emits a one-shot process-level notice and does not touch the hook.) -/
def hookTap (h : HookState) (type : String) (options0 : JSVal) (fn : JSVal) : TapResult :=
  let step1 : Except TapError JSVal :=
    if jsTypeof options0 = "string" then
      .ok (.vobj [("name", options0)])
    else if jsTypeof options0 ≠ "object" ∨ isNull options0 = true then
      .error .invalidOptions
    else
      .ok options0
  match step1 with
  | .error e => .thrown e h
  | .ok options1 =>
    if validTapName options1 then
      let options2 := objAssign (.vobj [("type", .vstr type), ("fn", fn)]) [options1]
      let options3 := runRegisterInterceptors h.interceptors options2
      .ok (hookInsert h options3)
    else
      .thrown .missingName h

/-- Method `Hook.tap`. -/
def hookTapSync (h : HookState) (options : JSVal) (fn : JSVal) : TapResult :=
  hookTap h "sync" options fn

/-- Method `Hook.tapAsync`. -/
def hookTapAsync (h : HookState) (options : JSVal) (fn : JSVal) : TapResult :=
  hookTap h "async" options fn

/-- Method `Hook.tapPromise`. -/
def hookTapPromise (h : HookState) (options : JSVal) (fn : JSVal) : TapResult :=
  hookTap h "promise" options fn

/-- Projection: the usage error a registration raised, if any. -/
def tapErrorOf : TapResult → Option TapError
  | .thrown e _ => some e
  | .ok _ => none

/-- Projection: the hook state after a registration (the state at the
throw for a failed one). -/
def tapStateOf : TapResult → HookState
  | .thrown _ h => h
  | .ok h => h

/-- Method `Hook.intercept` (src/lib/Hook.js lines 172-182): reset the compiled
dispatchers, append (a shallow copy of) the interceptor, and — when it has
a `register` — overwrite every existing tap with `register(tap)`
unconditionally (no `undefined` check, unlike the registration-time
fold). -/
def hookIntercept (h : HookState) (it : Interceptor) : HookState :=
  let h1 := resetCompilation h
  let h2 := { h1 with interceptors := h1.interceptors ++ [it] }
  match it.register with
  | none => h2
  | some reg => { h2 with taps := h2.taps.map reg }

/-- The option-merging closure of `Hook.withOptions`:
`Object.assign({}, options, typeof opt === "string" ? {name: opt} : opt)`. -/
def mergeTapOptions (defaults : JSVal) (opt : JSVal) : JSVal :=
  objAssign (.vobj [])
    [defaults, if jsTypeof opt = "string" then .vobj [("name", opt)] else opt]

/-- The `tap` method of the facade returned by `hook.withOptions(defaults)`:
it delegates to the underlying hook's `tap` on the merged options. -/
def withOptionsTap (h : HookState) (defaults : JSVal) (opt : JSVal) (fn : JSVal) : TapResult :=
  hookTapSync h (mergeTapOptions defaults opt) fn

/-- An operation performed on a hook through its public surface: a tap
registration (a thrown usage error propagates to the caller and leaves the
state as it was at the throw), an `intercept`, or an invocation of one of
the three dispatcher slots.  Invoking a slot that still holds its
trampoline makes the trampoline synthesize a dispatcher via
`_createCall(type)` and store it in that slot; invoking a slot that
already holds a dispatcher just runs it. -/
inductive HookOp : Type where
  | opTap (type : String) (options : JSVal) (fn : JSVal) : HookOp
  | opIntercept (it : Interceptor) : HookOp
  | opCall : HookOp
  | opCallAsync : HookOp
  | opPromise : HookOp

/-- Effect of one public operation on the hook state. -/
def runOp (h : HookState) : HookOp → HookState
  | .opTap type options fn => tapStateOf (hookTap h type options fn)
  | .opIntercept it => hookIntercept h it
  | .opCall =>
      if h.call = Slot.trampoline then { h with call := .compiled "sync" } else h
  | .opCallAsync =>
      if h.callAsync = Slot.trampoline then { h with callAsync := .compiled "async" } else h
  | .opPromise =>
      if h.promise = Slot.trampoline then { h with promise := .compiled "promise" } else h

/-- Run a sequence of public operations on a freshly constructed hook. -/
def runOps (args : List String) (ops : List HookOp) : HookState :=
  ops.foldl runOp (mkHook args .vundefined)

/-- Whether `Hook._tap` accepts the given options value (this is
independent of the hook's state: validation reads only the argument). -/
def tapOptionsUsable (options : JSVal) : Bool :=
  (jsTypeof options == "string" || (jsTypeof options == "object" && !isNull options))
    && validTapName (wrapStringOptions options)

/-- Whether an operation successfully mutates the registration state (a
tap with usable options, or any `intercept`). -/
def isMutation : HookOp → Bool
  | .opTap _ options _ => tapOptionsUsable options
  | .opIntercept _ => true
  | _ => false

/-- Whether an operation invokes one of the three dispatcher slots. -/
def isInvoke : HookOp → Bool
  | .opCall => true
  | .opCallAsync => true
  | .opPromise => true
  | _ => false

/-- Whether, over a trace, some dispatcher invocation happened after the
last successful mutation (after the start, if no mutation ever
succeeded) — exactly the situations in which a dispatcher has been
synthesized since the last mutation. -/
def synthSinceMutation (ops : List HookOp) : Bool :=
  ops.foldl
    (fun b op => if isMutation op then false else if isInvoke op then true else b)
    false

/-- All three dispatcher slots hold their trampolines. -/
def allTrampoline (h : HookState) : Prop :=
  h.call = Slot.trampoline ∧ h.callAsync = Slot.trampoline ∧ h.promise = Slot.trampoline

/-! ### The promise calling convention of the generated dispatcher

`HookCodeFactory.create` for `type === "promise"` wraps the orchestration
body in `new Promise((_resolve, _reject) => { ... })` and, whenever the
orchestration used `onError` at least once (`errorHelperUsed`), emits

```
var _sync = true;
function _error(_err) {
  if(_sync)
    _resolve(Promise.resolve().then(() => { throw _err; }));
  else
    _reject(_err);
};
...
_sync = false;
```

The concrete hook flavours that provide the orchestration body
(`content`) are not part of this repository's sources, so the basic
series flavour is modelled from the spec below (§4.2: series orchestration
over the taps, `onError` routed to the outer error continuation, `onDone`
to the outer completion). -/

/-- How a promise executor has settled, if at all: fulfilled with a value,
rejected directly via `_reject`, or resolved with a thenable that throws
(the `_sync` branch of `_error`), which rejects the promise on a later
microtask. -/
inductive PromiseSettle : Type where
  | sfulfill (v : JSVal) : PromiseSettle
  | sreject (e : JSVal) : PromiseSettle
  | sdeferReject (e : JSVal) : PromiseSettle

/-- Executor state: the first call to `_resolve`/`_reject` wins, later
calls are ignored. -/
structure ExecState : Type where
  settled : Option PromiseSettle

/-- Settle the executor (first settlement wins, as for a JS promise). -/
def execSettle (st : ExecState) (s : PromiseSettle) : ExecState :=
  match st.settled with
  | some _ => st
  | none => { settled := some s }

/-- The emitted `_error(err)` helper: while `_sync` is true it resolves
with a thenable that throws (deferring the rejection to the next
microtask); after the body has finished (`_sync = false`) it rejects
directly. -/
def promiseErrorFn (sync : Bool) (st : ExecState) (e : JSVal) : ExecState :=
  if sync then execSettle st (.sdeferReject e) else execSettle st (.sreject e)

/-- Outcome of calling the generated `promise` dispatcher, observed from
the caller: the returned promise's eventual fate.  `syncThrow` would mean
the dispatcher call itself threw before returning a promise — the
`Promise` constructor converts an executor throw into a rejection, so no
execution path of the model produces it. -/
inductive PromiseOutcome : Type where
  | pending : PromiseOutcome
  | fulfilled (v : JSVal) : PromiseOutcome
  | rejectedNow (e : JSVal) : PromiseOutcome
  | rejectedDeferred (e : JSVal) : PromiseOutcome
  | syncThrow (e : JSVal) : PromiseOutcome

/-- The behaviour of one sync tap on the invocation's arguments: it either
throws an error or returns a value. -/
def TapRun : Type := Except JSVal JSVal

/-- The executor body generated for a series orchestration over sync taps
(no interceptors): for each tap in order, `callTap` emits
`try { _fnI(...); } catch(_err) { _hasErrorI = true; _error(_err); } if(!_hasErrorI) { ...rest... }`
(the promise convention passes no `rethrowIfPossible`, so every sync tap
is wrapped in try/catch), and the tail continuation is `_resolve()`.  All
taps run synchronously inside the executor, so `_sync` is still `true`
whenever `_error` fires here. -/
def promiseSeriesBody : List TapRun → ExecState → ExecState
  | [], st => execSettle st (.sfulfill .vundefined)
  | r :: rest, st =>
    match r with
    | .error e => promiseErrorFn true st e
    | .ok _ => promiseSeriesBody rest st

/-- The observable outcome of `hook.promise(...)` for a series hook whose
taps are all sync: the generated function's only statement is
`return new Promise(executor)`; the executor runs the body, and the
promise's fate is read off the first settlement.  Resolving with the
throwing thenable rejects the promise one microtask later
(`rejectedDeferred`). -/
def promiseDispatchOutcome (runs : List TapRun) : PromiseOutcome :=
  match (promiseSeriesBody runs { settled := none }).settled with
  | none => .pending
  | some (.sfulfill v) => .fulfilled v
  | some (.sreject e) => .rejectedNow e
  | some (.sdeferReject e) => .rejectedDeferred e

/-- Whether `callTap(tapIndex, ...)` emits a use of `onError` for a tap of
the given type: a sync tap uses it in its catch block unless
`rethrowIfPossible` elides the try/catch; async and promise taps always
route their failures through it. -/
def callTapUsesOnError (tapType : String) (rethrowIfPossible : Bool) : Bool :=
  match tapType with
  | "sync" => !rethrowIfPossible
  | _ => true

/-- Whether the series orchestration (`callTapsSeries`) emits any use of
`onError`, given the tap types in order and the outer `rethrowIfPossible`
hint: each tap `i` is emitted with
`rethrowIfPossible && (firstAsync < 0 || i < firstAsync)`, and with no
taps the series is just the tail `onDone()`. -/
def seriesUsesOnError (tapTypes : List String) (rethrowIfPossible : Bool) : Bool :=
  let firstAsync := tapTypes.findIdx? (fun t => t ≠ "sync")
  (List.range tapTypes.length).any fun i =>
    callTapUsesOnError (tapTypes.getD i "sync")
      (rethrowIfPossible &&
        (match firstAsync with
         | none => true
         | some fa => i < fa))

/-- The flag `errorHelperUsed` of `create`'s promise branch for the series flavour:
the `_sync`/`_error` helper is emitted exactly when the orchestration body
used `onError` at least once; the promise convention passes no
`rethrowIfPossible`, so the hint is false. -/
def promiseErrorHelperUsed (tapTypes : List String) : Bool :=
  seriesUsesOnError tapTypes false

/-- The names of a list of tap descriptors, as strings (a descriptor
without a string `name` reads as `""`; every modelled descriptor has
one). -/
def tapNames (taps : List JSVal) : List String :=
  taps.map (fun t =>
    match getField t "name" with
    | .vstr s => s
    | _ => "")

/-- Spec §8 scenario 1: tap `A`, then `B`, then `{name:"C", before:"B"}`,
then `{name:"D", before:["A","C"]}`. -/
def beforeScenario : HookState :=
  runOps ["x"]
    [.opTap "sync" (.vstr "A") (.vfun 0),
     .opTap "sync" (.vstr "B") (.vfun 1),
     .opTap "sync" (.vobj [("name", .vstr "C"), ("before", .vstr "B")]) (.vfun 2),
     .opTap "sync" (.vobj [("name", .vstr "D"), ("before", .varr [.vstr "A", .vstr "C"])])
       (.vfun 3)]

/-- Spec §8 scenario 2: tap `{name:"a",stage:10}`, `{name:"b",stage:-5}`,
`{name:"c"}`, `{name:"d",stage:0}`. -/
def stageScenario : HookState :=
  runOps ["x"]
    [.opTap "sync" (.vobj [("name", .vstr "a"), ("stage", .vnum 10)]) (.vfun 0),
     .opTap "sync" (.vobj [("name", .vstr "b"), ("stage", .vnum (-5))]) (.vfun 1),
     .opTap "sync" (.vobj [("name", .vstr "c")]) (.vfun 2),
     .opTap "sync" (.vobj [("name", .vstr "d"), ("stage", .vnum 0)]) (.vfun 3)]

/-- A registration sequence breaking the final-array reading of the
`before` invariant: tap `{name:"A", before:"B"}` (no `B` is present, so
`A` lands at the front), then tap `{name:"B", stage:-1}`, whose walk
passes `A` (stage 0 > -1) and lands at the front — leaving the tap named
`B` *before* the tap that asked to precede it. -/
def beforeBreakScenario : HookState :=
  runOps ["x"]
    [.opTap "sync" (.vobj [("name", .vstr "A"), ("before", .vstr "B")]) (.vfun 0),
     .opTap "sync" (.vobj [("name", .vstr "B"), ("stage", .vnum (-1))]) (.vfun 1)]

/-! ## Basic lemmas -/

theorem sameValueZero_eq_of_eq_true {a b : JSVal} (h : sameValueZero a b = true) : a = b := by
  cases a <;> cases b <;> simp_all [sameValueZero]

theorem setOrPush_eq (l : List JSVal) (i : Nat) (v : JSVal) (h : i ≤ l.length) :
    setOrPush l i v = l.take i ++ v :: l.drop (i + 1) := by
  unfold setOrPush
  rcases Nat.lt_or_ge i l.length with h' | h'
  · rw [if_pos h', List.set_eq_take_cons_drop _ h']
  · have hi : i = l.length := Nat.le_antisymm h h'
    subst hi
    rw [if_neg (Nat.lt_irrefl _)]
    simp

theorem setOrPush_length (l : List JSVal) (i : Nat) (v : JSVal) (h : i ≤ l.length) :
    (setOrPush l i v).length = max l.length (i + 1) := by
  rw [setOrPush_eq l i v h]
  simp
  omega

/-! ## The insertion walk stores the item at `insertLoopPos` -/

theorem insertLoop_succ_none (item : JSVal) (stage : Int) (i : Nat) (taps : List JSVal) :
    insertLoop item stage (i + 1) none taps =
      if stage < stageOrZero (taps.getD i .vundefined) then
        insertLoop item stage i none (setOrPush taps (i + 1) (taps.getD i .vundefined))
      else
        setOrPush (setOrPush taps (i + 1) (taps.getD i .vundefined)) (i + 1) item := rfl

theorem insertLoop_succ_some (item : JSVal) (stage : Int) (i : Nat) (s : List JSVal)
    (taps : List JSVal) :
    insertLoop item stage (i + 1) (some s) taps =
      if setHas s (getField (taps.getD i .vundefined) "name") then
        insertLoop item stage i (some (setDelete s (getField (taps.getD i .vundefined) "name")))
          (setOrPush taps (i + 1) (taps.getD i .vundefined))
      else if 0 < s.length then
        insertLoop item stage i (some s) (setOrPush taps (i + 1) (taps.getD i .vundefined))
      else if stage < stageOrZero (taps.getD i .vundefined) then
        insertLoop item stage i (some s) (setOrPush taps (i + 1) (taps.getD i .vundefined))
      else
        setOrPush (setOrPush taps (i + 1) (taps.getD i .vundefined)) (i + 1) item := rfl

theorem insertLoopPos_succ_none (stage : Int) (i : Nat) (taps : List JSVal) :
    insertLoopPos stage (i + 1) none taps =
      if stage < stageOrZero (taps.getD i .vundefined) then insertLoopPos stage i none taps
      else i + 1 := rfl

theorem insertLoopPos_succ_some (stage : Int) (i : Nat) (s : List JSVal) (taps : List JSVal) :
    insertLoopPos stage (i + 1) (some s) taps =
      if setHas s (getField (taps.getD i .vundefined) "name") then
        insertLoopPos stage i (some (setDelete s (getField (taps.getD i .vundefined) "name"))) taps
      else if 0 < s.length then
        insertLoopPos stage i (some s) taps
      else if stage < stageOrZero (taps.getD i .vundefined) then
        insertLoopPos stage i (some s) taps
      else i + 1 := rfl

theorem insertLoopPos_le (stage : Int) :
    ∀ (i : Nat) (b : Option (List JSVal)) (taps : List JSVal),
      insertLoopPos stage i b taps ≤ i
  | 0, _, _ => Nat.le_refl 0
  | i + 1, none, taps => by
    rw [insertLoopPos_succ_none]
    split
    · exact Nat.le_succ_of_le (insertLoopPos_le stage i none taps)
    · exact Nat.le_refl _
  | i + 1, some s, taps => by
    rw [insertLoopPos_succ_some]
    split
    · exact Nat.le_succ_of_le (insertLoopPos_le stage i _ taps)
    · split
      · exact Nat.le_succ_of_le (insertLoopPos_le stage i _ taps)
      · split
        · exact Nat.le_succ_of_le (insertLoopPos_le stage i _ taps)
        · exact Nat.le_refl _

theorem insertLoopPos_congr (stage : Int) :
    ∀ (i : Nat) (b : Option (List JSVal)) (taps taps' : List JSVal),
      (∀ j, j < i → taps.getD j .vundefined = taps'.getD j .vundefined) →
      insertLoopPos stage i b taps = insertLoopPos stage i b taps'
  | 0, _, _, _, _ => rfl
  | i + 1, none, taps, taps', h => by
    have hx : taps.getD i .vundefined = taps'.getD i .vundefined := h i (Nat.lt_succ_self i)
    have ih : ∀ b', insertLoopPos stage i b' taps = insertLoopPos stage i b' taps' :=
      fun b' => insertLoopPos_congr stage i b' taps taps'
        (fun j hj => h j (Nat.lt_succ_of_lt hj))
    rw [insertLoopPos_succ_none, insertLoopPos_succ_none, ← hx, ih none]
  | i + 1, some s, taps, taps', h => by
    have hx : taps.getD i .vundefined = taps'.getD i .vundefined := h i (Nat.lt_succ_self i)
    have ih : ∀ b', insertLoopPos stage i b' taps = insertLoopPos stage i b' taps' :=
      fun b' => insertLoopPos_congr stage i b' taps taps'
        (fun j hj => h j (Nat.lt_succ_of_lt hj))
    rw [insertLoopPos_succ_some, insertLoopPos_succ_some, ← hx]
    split
    · rw [ih _]
    · split
      · rw [ih _]
      · split
        · rw [ih _]
        · rfl

theorem setOrPush_getD_lt (l : List JSVal) (i j : Nat) (v d : JSVal) (hi : i ≤ l.length)
    (hj : j < i) : (setOrPush l i v).getD j d = l.getD j d := by
  unfold setOrPush
  split
  · rw [List.getD_eq_getElem?_getD, List.getD_eq_getElem?_getD,
      List.getElem?_set_ne (Nat.ne_of_lt hj).symm]
  · have hjl : j < l.length := by omega
    rw [List.getD_eq_getElem?_getD, List.getD_eq_getElem?_getD, List.getElem?_append_left hjl]

theorem take_setOrPush (l : List JSVal) (i k : Nat) (v : JSVal) (hi : i + 1 ≤ l.length)
    (hk : k ≤ i + 1) : (setOrPush l (i + 1) v).take k = l.take k := by
  rw [setOrPush_eq l (i + 1) v hi, List.take_append_of_le_length, List.take_take,
    Nat.min_eq_left hk]
  rw [List.length_take]
  omega

theorem drop_setOrPush (l : List JSVal) (i : Nat) (v : JSVal) (hi : i + 1 ≤ l.length) :
    (setOrPush l (i + 1) v).drop (i + 1) = v :: l.drop (i + 2) := by
  rw [setOrPush_eq l (i + 1) v hi]
  have hlen : (l.take (i + 1)).length = i + 1 := by
    rw [List.length_take]; omega
  rw [List.drop_left' hlen]

theorem drop_take_succ_self (taps : List JSVal) (q i : Nat) (hq : q ≤ i)
    (hi : i < taps.length) :
    (taps.drop q).take (i + 1 - q) =
      (taps.drop q).take (i - q) ++ [taps.getD i .vundefined] := by
  have h1 : i + 1 - q = (i - q) + 1 := by omega
  rw [h1, List.take_succ, List.getElem?_drop]
  have h2 : q + (i - q) = i := by omega
  rw [h2, List.getD_eq_getElem?_getD]
  rw [(List.getElem?_eq_some_getElem_iff taps i hi).mpr trivial]
  rfl

theorem insertLoop_step_continue (item x : JSVal) (stage : Int) (i : Nat)
    (b' : Option (List JSVal)) (taps : List JSVal)
    (hi : i + 1 ≤ taps.length) (hx : x = taps.getD i .vundefined)
    (ih : ∀ (taps1 : List JSVal), i ≤ taps1.length →
      insertLoop item stage i b' taps1 =
        taps1.take (insertLoopPos stage i b' taps1) ++ item ::
          ((taps1.drop (insertLoopPos stage i b' taps1)).take
              (i - insertLoopPos stage i b' taps1)
            ++ taps1.drop (i + 1))) :
    insertLoop item stage i b' (setOrPush taps (i + 1) x) =
      taps.take (insertLoopPos stage i b' taps) ++ item ::
        ((taps.drop (insertLoopPos stage i b' taps)).take
            (i + 1 - insertLoopPos stage i b' taps)
          ++ taps.drop (i + 2)) := by
  have hlen1 : i ≤ (setOrPush taps (i + 1) x).length := by
    rw [setOrPush_length taps (i + 1) x hi]; omega
  rw [ih (setOrPush taps (i + 1) x) hlen1]
  have hpos : insertLoopPos stage i b' (setOrPush taps (i + 1) x) =
      insertLoopPos stage i b' taps := by
    apply insertLoopPos_congr
    intro j hj
    exact setOrPush_getD_lt taps (i + 1) j x .vundefined hi (by omega)
  rw [hpos]
  have hq : insertLoopPos stage i b' taps ≤ i := insertLoopPos_le stage i b' taps
  rw [take_setOrPush taps i _ x hi (by omega)]
  have hdt : ((setOrPush taps (i + 1) x).drop (insertLoopPos stage i b' taps)).take
      (i - insertLoopPos stage i b' taps) =
      (taps.drop (insertLoopPos stage i b' taps)).take (i - insertLoopPos stage i b' taps) := by
    rw [List.take_drop, List.take_drop]
    have h2 : insertLoopPos stage i b' taps + (i - insertLoopPos stage i b' taps) = i := by
      omega
    rw [h2, take_setOrPush taps i i x hi (by omega)]
  rw [hdt, drop_setOrPush taps i x hi,
    drop_take_succ_self taps (insertLoopPos stage i b' taps) i hq (by omega), ← hx]
  simp

theorem insertLoop_step_store (item x : JSVal) (i : Nat) (taps : List JSVal)
    (hi : i + 1 ≤ taps.length) :
    setOrPush (setOrPush taps (i + 1) x) (i + 1) item =
      taps.take (i + 1) ++ item :: ((taps.drop (i + 1)).take 0 ++ taps.drop (i + 2)) := by
  have hlen1 : i + 1 ≤ (setOrPush taps (i + 1) x).length := by
    rw [setOrPush_length taps (i + 1) x hi]; omega
  rw [setOrPush_eq _ (i + 1) item hlen1, take_setOrPush taps i (i + 1) x hi (Nat.le_refl _)]
  have hd : (setOrPush taps (i + 1) x).drop (i + 2) = taps.drop (i + 2) := by
    have := drop_setOrPush taps i x hi
    have h2 : (setOrPush taps (i + 1) x).drop (i + 2) =
        ((setOrPush taps (i + 1) x).drop (i + 1)).drop 1 := by
      rw [List.drop_drop]
    rw [h2, this]
    rfl
  rw [hd]
  simp

theorem insertLoop_eq (item : JSVal) (stage : Int) :
    ∀ (i : Nat) (b : Option (List JSVal)) (taps : List JSVal), i ≤ taps.length →
      insertLoop item stage i b taps =
        taps.take (insertLoopPos stage i b taps) ++ item ::
          ((taps.drop (insertLoopPos stage i b taps)).take (i - insertLoopPos stage i b taps)
            ++ taps.drop (i + 1))
  | 0, b, taps, _ => by
    cases b <;>
      simp [insertLoop, insertLoopPos, setOrPush_eq taps 0 _ (Nat.zero_le _)]
  | i + 1, none, taps, hi => by
    rw [insertLoop_succ_none, insertLoopPos_succ_none]
    split
    · exact insertLoop_step_continue item _ stage i none taps hi rfl
        (fun taps1 h1 => insertLoop_eq item stage i none taps1 h1)
    · simpa using insertLoop_step_store item (taps.getD i .vundefined) i taps hi
  | i + 1, some s, taps, hi => by
    rw [insertLoop_succ_some, insertLoopPos_succ_some]
    split
    · exact insertLoop_step_continue item _ stage i _ taps hi rfl
        (fun taps1 h1 => insertLoop_eq item stage i _ taps1 h1)
    · split
      · exact insertLoop_step_continue item _ stage i _ taps hi rfl
          (fun taps1 h1 => insertLoop_eq item stage i _ taps1 h1)
      · split
        · exact insertLoop_step_continue item _ stage i _ taps hi rfl
            (fun taps1 h1 => insertLoop_eq item stage i _ taps1 h1)
        · simpa using insertLoop_step_store item (taps.getD i .vundefined) i taps hi

/-! ## Properties of the final position -/

theorem insertLoopPos_none_stage (stage : Int) :
    ∀ (i : Nat) (taps : List JSVal),
      (∀ k, insertLoopPos stage i none taps ≤ k → k < i →
        stage < stageOrZero (taps.getD k .vundefined)) ∧
      (0 < insertLoopPos stage i none taps →
        stageOrZero (taps.getD (insertLoopPos stage i none taps - 1) .vundefined) ≤ stage)
  | 0, taps => by
    constructor
    · intro k _ hk
      exact absurd hk (Nat.not_lt_zero k)
    · intro h
      simp [insertLoopPos] at h
  | i + 1, taps => by
    have ih := insertLoopPos_none_stage stage i taps
    by_cases hc : stage < stageOrZero (taps.getD i .vundefined)
    · rw [insertLoopPos_succ_none, if_pos hc]
      constructor
      · intro k h1 h2
        rcases Nat.lt_succ_iff_lt_or_eq.mp h2 with h3 | h3
        · exact ih.1 k h1 h3
        · rw [h3]
          exact hc
      · exact ih.2
    · rw [insertLoopPos_succ_none, if_neg hc]
      constructor
      · intro k h1 h2
        omega
      · intro _
        simpa using Int.not_lt.mp hc

theorem insertLoopPos_before_le (stage : Int) :
    ∀ (i : Nat) (s : List JSVal) (taps : List JSVal), i ≤ taps.length →
      List.Pairwise (fun a b => sameValueZero a b = false)
        (taps.map (fun t => getField t "name")) →
      ∀ k, k < i → setHas s (getField (taps.getD k .vundefined) "name") = true →
        insertLoopPos stage i (some s) taps ≤ k
  | 0, _, _, _, _, k, hk, _ => absurd hk (Nat.not_lt_zero k)
  | i + 1, s, taps, hi, hnames, k, hk, hks => by
    have hnamesD : ∀ j l, j < l → l < taps.length →
        sameValueZero (getField (taps.getD j .vundefined) "name")
          (getField (taps.getD l .vundefined) "name") = false := by
      intro j l hjl hl
      have hj : j < taps.length := Nat.lt_trans hjl hl
      have h := (List.pairwise_iff_getElem.mp hnames) j l
        (by simpa using hj) (by simpa using hl) hjl
      simp only [List.getElem_map] at h
      rw [List.getD_eq_getElem taps .vundefined hj, List.getD_eq_getElem taps .vundefined hl]
      exact h
    rw [insertLoopPos_succ_some]
    by_cases h1 : setHas s (getField (taps.getD i .vundefined) "name") = true
    · rw [if_pos h1]
      rcases Nat.lt_succ_iff_lt_or_eq.mp hk with h3 | h3
      · -- k < i : the deleted name is not `k`'s name, so the membership survives
        apply insertLoopPos_before_le stage i _ taps (by omega) hnames k h3
        rcases List.any_eq_true.mp hks with ⟨w, hw, hwk⟩
        have hwk' := sameValueZero_eq_of_eq_true hwk
        apply List.any_eq_true.mpr
        refine ⟨w, ?_, hwk⟩
        apply List.mem_filter.mpr
        refine ⟨hw, ?_⟩
        rw [hwk']
        have hfalse := hnamesD k i h3 (by omega)
        simp only [hfalse, Bool.not_false]
      · rw [h3]
        exact insertLoopPos_le stage i _ taps
    · rw [if_neg h1]
      by_cases h2 : 0 < s.length
      · rw [if_pos h2]
        rcases Nat.lt_succ_iff_lt_or_eq.mp hk with h3 | h3
        · exact insertLoopPos_before_le stage i s taps (by omega) hnames k h3 hks
        · rw [h3] at hks
          exact absurd hks h1
      · -- `s` is empty, so the membership hypothesis is impossible
        have hs : s = [] := List.length_eq_zero.mp (by omega)
        rw [hs] at hks
        simp [setHas] at hks

/-- Characterization: `Hook._insert` on the taps array is insertion at a single position:
the old elements keep their relative order, none is lost or duplicated. -/
theorem hookInsertTaps_eq (taps : List JSVal) (item : JSVal) :
    hookInsertTaps taps item =
      taps.take (insertLoopPos (itemStage item) taps.length (beforeInit item) taps) ++
        item :: taps.drop (insertLoopPos (itemStage item) taps.length (beforeInit item) taps) := by
  unfold hookInsertTaps
  rw [insertLoop_eq item (itemStage item) taps.length (beforeInit item) taps (Nat.le_refl _)]
  have h1 : taps.drop (taps.length + 1) = [] := List.drop_eq_nil_of_le (by omega)
  have h2 : (taps.drop (insertLoopPos (itemStage item) taps.length (beforeInit item) taps)).take
      (taps.length - insertLoopPos (itemStage item) taps.length (beforeInit item) taps) =
      taps.drop (insertLoopPos (itemStage item) taps.length (beforeInit item) taps) := by
    apply List.take_of_length_le
    rw [List.length_drop]
  rw [h1, h2, List.append_nil]

/-! ## Insertion without `before` hints keeps `taps` stage-sorted and FIFO -/

theorem itemStage_eq_stageOrZero : itemStage = stageOrZero := rfl

theorem stage_lt_of_mem_drop (stage : Int) (taps : List JSVal)
    {x : JSVal} (hx : x ∈ taps.drop (insertLoopPos stage taps.length none taps)) :
    stage < stageOrZero x := by
  rcases List.mem_iff_getElem.mp hx with ⟨j, hj, hxj⟩
  rw [List.length_drop] at hj
  have hp := insertLoopPos_le stage taps.length none taps
  have hkey : taps.getD (insertLoopPos stage taps.length none taps + j) JSVal.vundefined
      = x := by
    rw [List.getD_eq_getElem?_getD, ← List.getElem?_drop,
      (List.getElem?_eq_some_getElem_iff
        (taps.drop (insertLoopPos stage taps.length none taps)) j
        (by rw [List.length_drop]; omega)).mpr trivial,
      Option.getD_some]
    exact hxj
  have hst := (insertLoopPos_none_stage stage taps.length taps).1
    (insertLoopPos stage taps.length none taps + j) (by omega) (by omega)
  rw [hkey] at hst
  exact hst

theorem stage_le_of_mem_take (stage : Int) (taps : List JSVal)
    (hsorted : taps.Pairwise (fun a b => stageOrZero a ≤ stageOrZero b))
    {x : JSVal} (hx : x ∈ taps.take (insertLoopPos stage taps.length none taps)) :
    stageOrZero x ≤ stage := by
  rcases List.mem_iff_getElem.mp hx with ⟨j, hj, hxj⟩
  rw [List.length_take] at hj
  have hp := insertLoopPos_le stage taps.length none taps
  have hjp : j < insertLoopPos stage taps.length none taps := by omega
  have hjn : j < taps.length := by omega
  have hkey : taps.getD j JSVal.vundefined = x := by
    rw [List.getD_eq_getElem?_getD, ← List.getElem?_take_of_lt hjp,
      (List.getElem?_eq_some_getElem_iff
        (taps.take (insertLoopPos stage taps.length none taps)) j
        (by rw [List.length_take]; omega)).mpr trivial,
      Option.getD_some]
    exact hxj
  have hpos : 0 < insertLoopPos stage taps.length none taps := by omega
  have hlast := (insertLoopPos_none_stage stage taps.length taps).2 hpos
  have hlastn : insertLoopPos stage taps.length none taps - 1 < taps.length := by omega
  have hxg : stageOrZero x = stageOrZero (taps.getD j JSVal.vundefined) := by rw [hkey]
  rcases Nat.lt_or_ge j (insertLoopPos stage taps.length none taps - 1) with hj2 | hj2
  · have hpair := (List.pairwise_iff_getElem.mp hsorted) j
      (insertLoopPos stage taps.length none taps - 1) hjn hlastn hj2
    have hpair2 : stageOrZero (taps.getD j JSVal.vundefined) ≤
        stageOrZero (taps.getD (insertLoopPos stage taps.length none taps - 1)
          JSVal.vundefined) := by
      rw [List.getD_eq_getElem taps JSVal.vundefined hjn,
        List.getD_eq_getElem taps JSVal.vundefined hlastn]
      exact hpair
    rw [hxg]
    exact le_trans hpair2 hlast
  · have hje : j = insertLoopPos stage taps.length none taps - 1 := by omega
    rw [hxg, hje]
    exact hlast

theorem insert_no_before_step (taps : List JSVal) (item : JSVal)
    (hb : beforeInit item = none)
    (hsorted : taps.Pairwise (fun a b => stageOrZero a ≤ stageOrZero b)) :
    (hookInsertTaps taps item).Pairwise (fun a b => stageOrZero a ≤ stageOrZero b) ∧
    ∀ s : Int,
      (hookInsertTaps taps item).filter (fun t => decide (stageOrZero t = s)) =
        taps.filter (fun t => decide (stageOrZero t = s)) ++
          (if stageOrZero item = s then [item] else []) := by
  rw [hookInsertTaps_eq taps item, hb, itemStage_eq_stageOrZero]
  constructor
  · apply List.pairwise_append.mpr
    refine ⟨hsorted.sublist (List.take_sublist _ _), ?_, ?_⟩
    · apply List.pairwise_cons.mpr
      exact ⟨fun b hb' => le_of_lt (stage_lt_of_mem_drop _ taps hb'),
        hsorted.sublist (List.drop_sublist _ _)⟩
    · intro a ha b hb'
      rcases List.mem_cons.mp hb' with h | h
      · rw [h]
        exact stage_le_of_mem_take _ taps hsorted ha
      · have hcross := (List.pairwise_append.mp
          (by rw [List.take_append_drop
            (insertLoopPos (stageOrZero item) taps.length none taps) taps]
              exact hsorted)).2.2
        exact hcross a ha b h
  · intro s
    rw [List.filter_append, List.filter_cons]
    have hsplit : taps.filter (fun t => decide (stageOrZero t = s)) =
        (taps.take (insertLoopPos (stageOrZero item) taps.length none taps)).filter
            (fun t => decide (stageOrZero t = s)) ++
          (taps.drop (insertLoopPos (stageOrZero item) taps.length none taps)).filter
            (fun t => decide (stageOrZero t = s)) := by
      rw [← List.filter_append, List.take_append_drop]
    by_cases hs : stageOrZero item = s
    · have hnil : (taps.drop (insertLoopPos (stageOrZero item) taps.length none taps)).filter
          (fun t => decide (stageOrZero t = s)) = [] := by
        apply List.filter_eq_nil_iff.mpr
        intro a ha
        have := stage_lt_of_mem_drop (stageOrZero item) taps ha
        simp only [decide_eq_true_eq]
        omega
      rw [hsplit, hnil, List.append_nil, if_pos hs, if_pos (decide_eq_true hs)]
    · rw [if_neg hs, if_neg (fun hh => hs (of_decide_eq_true hh)), hsplit, List.append_nil]

/-! ## Structure of `_tap`, `intercept`, and the dispatcher slots -/

theorem hookTap_eq_of_usable (h : HookState) (type : String) (options fn : JSVal)
    (hu : tapOptionsUsable options = true) :
    hookTap h type options fn = .ok (hookInsert h (runRegisterInterceptors h.interceptors
      (objAssign (.vobj [("type", .vstr type), ("fn", fn)]) [wrapStringOptions options]))) := by
  cases options <;>
    simp_all [hookTap, tapOptionsUsable, jsTypeof, isNull, wrapStringOptions]

theorem hookTap_eq_of_unusable (h : HookState) (type : String) (options fn : JSVal)
    (hu : tapOptionsUsable options = false) :
    hookTap h type options fn =
      .thrown
        (if jsTypeof options = "string" ∨ (jsTypeof options = "object" ∧ isNull options = false)
         then .missingName else .invalidOptions) h := by
  cases options <;>
    simp_all [hookTap, tapOptionsUsable, jsTypeof, isNull, wrapStringOptions]

theorem hookInsert_slots (h : HookState) (item : JSVal) :
    (hookInsert h item).call = .trampoline ∧ (hookInsert h item).callAsync = .trampoline ∧
      (hookInsert h item).promise = .trampoline := by
  simp [hookInsert, resetCompilation]

theorem hookIntercept_slots (h : HookState) (it : Interceptor) :
    (hookIntercept h it).call = .trampoline ∧ (hookIntercept h it).callAsync = .trampoline ∧
      (hookIntercept h it).promise = .trampoline := by
  unfold hookIntercept resetCompilation
  cases it.register <;> simp

theorem hookIntercept_taps (h : HookState) (it : Interceptor) (reg : JSVal → JSVal)
    (hreg : it.register = some reg) : (hookIntercept h it).taps = h.taps.map reg := by
  unfold hookIntercept resetCompilation
  rw [hreg]

theorem hookIntercept_interceptors (h : HookState) (it : Interceptor) :
    (hookIntercept h it).interceptors = h.interceptors ++ [it] := by
  unfold hookIntercept resetCompilation
  cases it.register <;> simp

/-! ## Trampoline invalidation over operation traces -/

theorem runOps_append_one (args : List String) (l : List HookOp) (op : HookOp) :
    runOps args (l ++ [op]) = runOp (runOps args l) op := by
  unfold runOps
  rw [List.foldl_append]
  rfl

theorem synthSinceMutation_append_one (l : List HookOp) (op : HookOp) :
    synthSinceMutation (l ++ [op]) =
      (if isMutation op then false
       else if isInvoke op then true
       else synthSinceMutation l) := by
  unfold synthSinceMutation
  rw [List.foldl_append]
  rfl

theorem runOps_trampoline_iff (args : List String) (ops : List HookOp) :
    allTrampoline (runOps args ops) ↔ synthSinceMutation ops = false := by
  induction ops using List.reverseRecOn with
  | nil => simp [runOps, mkHook, allTrampoline, synthSinceMutation]
  | append_singleton l op ih =>
      rw [runOps_append_one, synthSinceMutation_append_one]
      cases op with
      | opTap t o f =>
          by_cases hu : tapOptionsUsable o = true
          · rw [show (if isMutation (HookOp.opTap t o f) then false
                else if isInvoke (HookOp.opTap t o f) then true
                else synthSinceMutation l) = false from by simp [isMutation, hu]]
            have h1 := hookTap_eq_of_usable (runOps args l) t o f hu
            simp [runOp, h1, tapStateOf, allTrampoline, hookInsert, resetCompilation]
          · have hu' : tapOptionsUsable o = false := by simpa using hu
            have h1 := hookTap_eq_of_unusable (runOps args l) t o f hu'
            rw [show (if isMutation (HookOp.opTap t o f) then false
                else if isInvoke (HookOp.opTap t o f) then true
                else synthSinceMutation l) = synthSinceMutation l from by
              simp [isMutation, isInvoke, hu']]
            simp only [runOp, h1, tapStateOf]
            exact ih
      | opIntercept it =>
          rw [show (if isMutation (HookOp.opIntercept it) then false
              else if isInvoke (HookOp.opIntercept it) then true
              else synthSinceMutation l) = false from by simp [isMutation]]
          have hs := hookIntercept_slots (runOps args l) it
          simp [runOp, allTrampoline, hs.1, hs.2.1, hs.2.2]
      | opCall =>
          rw [show (if isMutation HookOp.opCall then false
              else if isInvoke HookOp.opCall then true
              else synthSinceMutation l) = true from by simp [isMutation, isInvoke]]
          simp only [runOp]
          split <;> simp_all [allTrampoline]
      | opCallAsync =>
          rw [show (if isMutation HookOp.opCallAsync then false
              else if isInvoke HookOp.opCallAsync then true
              else synthSinceMutation l) = true from by simp [isMutation, isInvoke]]
          simp only [runOp]
          split <;> simp_all [allTrampoline]
      | opPromise =>
          rw [show (if isMutation HookOp.opPromise then false
              else if isInvoke HookOp.opPromise then true
              else synthSinceMutation l) = true from by simp [isMutation, isInvoke]]
          simp only [runOp]
          split <;> simp_all [allTrampoline]

/-! ## Claim theorems -/

/-- Claim C9. Every call of `_insert` grows `taps` by exactly one: the
result is the old descriptor sequence with the new item placed at a single
position, so no pre-existing descriptor is lost or duplicated, and the
relative order of the pre-existing descriptors is unchanged (they form a
sublist) — the backward walk's transient duplication is always resolved by
the final store. -/
theorem insert_preserves_existing_taps (taps : List JSVal) (item : JSVal) :
    ∃ p, p ≤ taps.length ∧
      hookInsertTaps taps item = taps.take p ++ item :: taps.drop p ∧
      (hookInsertTaps taps item).length = taps.length + 1 ∧
      List.Sublist taps (hookInsertTaps taps item) := by
  refine ⟨insertLoopPos (itemStage item) taps.length (beforeInit item) taps,
    insertLoopPos_le _ _ _ _, hookInsertTaps_eq taps item, ?_, ?_⟩
  · rw [hookInsertTaps_eq]
    have := insertLoopPos_le (itemStage item) taps.length (beforeInit item) taps
    simp [List.length_append, List.length_take, List.length_drop]
    omega
  · rw [hookInsertTaps_eq]
    have hsub : List.Sublist
        (taps.take (insertLoopPos (itemStage item) taps.length (beforeInit item) taps) ++
          taps.drop (insertLoopPos (itemStage item) taps.length (beforeInit item) taps))
        (taps.take (insertLoopPos (itemStage item) taps.length (beforeInit item) taps) ++
          item ::
            taps.drop (insertLoopPos (itemStage item) taps.length (beforeInit item) taps)) :=
      (List.append_sublist_append_left _).mpr (List.sublist_cons_self _ _)
    rw [List.take_append_drop] at hsub
    exact hsub

/-- Claim C2. For every registration sequence that uses no `before`
hints, the resulting `taps` array is ordered by `stage` ascending (a
missing `stage` reads as `0`), and equal-stage taps keep registration
order: for every stage value, the subsequence of the result with that
stage equals the subsequence of the registration sequence with that stage.
In particular the concrete scenario `{a,10} {b,-5} {c} {d,0}` ends in name
order `b, c, d, a`. -/
theorem stage_ordering_fifo :
    (∀ items : List JSVal, (∀ it ∈ items, getField it "before" = JSVal.vundefined) →
      (items.foldl hookInsertTaps []).Pairwise (fun a b => stageOrZero a ≤ stageOrZero b) ∧
      ∀ s : Int,
        (items.foldl hookInsertTaps []).filter (fun t => decide (stageOrZero t = s)) =
          items.filter (fun t => decide (stageOrZero t = s))) ∧
    tapNames stageScenario.taps = ["b", "c", "d", "a"] := by
  constructor
  · intro items hbf
    induction items using List.reverseRecOn with
    | nil => simp
    | append_singleton l it ih =>
        rw [List.foldl_append]
        simp only [List.foldl_cons, List.foldl_nil]
        have hbl : ∀ x ∈ l, getField x "before" = JSVal.vundefined :=
          fun x hx => hbf x (List.mem_append.mpr (Or.inl hx))
        have hbit : getField it "before" = JSVal.vundefined :=
          hbf it (List.mem_append.mpr (Or.inr (List.mem_singleton.mpr rfl)))
        have hbnone : beforeInit it = none := by
          unfold beforeInit
          rw [hbit]
        obtain ⟨ihs, ihf⟩ := ih hbl
        obtain ⟨hs, hf⟩ := insert_no_before_step (l.foldl hookInsertTaps []) it hbnone ihs
        refine ⟨hs, ?_⟩
        intro s
        rw [hf s, ihf s, List.filter_append, List.filter_cons, List.filter_nil]
        by_cases hcs : stageOrZero it = s
        · rw [if_pos hcs, if_pos (decide_eq_true hcs)]
        · rw [if_neg hcs, if_neg (fun hh => hcs (of_decide_eq_true hh))]
  · rfl

/-- Claim C1, amended. The `before` guarantee holds at insertion time,
relative to the taps present then (and assuming the present taps carry
pairwise distinct names): when a tap with a `before` hint is inserted, it
lands at a position `p` such that every already-present tap whose name is
in the hint set had index at least `p` — and hence sits strictly after the
new tap in the result.  Later registrations may break the final-array
reading of the claim (see the counterexample).  The concrete scenario
`A; B; {C, before:"B"}; {D, before:["A","C"]}` ends in name order
`D, A, C, B`. -/
theorem before_ordering_insertion_time :
    (∀ (taps : List JSVal) (item : JSVal) (s : List JSVal),
      List.Pairwise (fun a b => sameValueZero a b = false)
        (taps.map (fun t => getField t "name")) →
      beforeInit item = some s →
      ∃ p, p ≤ taps.length ∧
        hookInsertTaps taps item = taps.take p ++ item :: taps.drop p ∧
        ∀ k, k < taps.length →
          setHas s (getField (taps.getD k .vundefined) "name") = true → p ≤ k) ∧
    tapNames beforeScenario.taps = ["D", "A", "C", "B"] := by
  constructor
  · intro taps item s hnames hbs
    refine ⟨insertLoopPos (itemStage item) taps.length (beforeInit item) taps,
      insertLoopPos_le _ _ _ _, hookInsertTaps_eq taps item, ?_⟩
    intro k hk hks
    rw [hbs]
    exact insertLoopPos_before_le (itemStage item) taps.length s taps (Nat.le_refl _)
      hnames k hk hks
  · rfl

/-- Claim C1, counterexample to the final-array reading. After the legal
registration sequence `tap {name:"A", before:"B"}` (no `B` present yet),
then `tap {name:"B", stage:-1}`, the final taps array has name order
`[B, A]`: the tap at index 1 carries `before: "B"` while the tap named
`"B"` sits at index 0, so the `before`-tap's index is not strictly less
than the index of the tap it names. -/
theorem before_ordering_final_counterexample :
    tapNames beforeBreakScenario.taps = ["B", "A"] ∧
    getField (beforeBreakScenario.taps.getD 1 .vundefined) "before" = .vstr "B" ∧
    getField (beforeBreakScenario.taps.getD 1 .vundefined) "name" = .vstr "A" ∧
    getField (beforeBreakScenario.taps.getD 0 .vundefined) "name" = .vstr "B" :=
  ⟨rfl, rfl, rfl, rfl⟩

/-- Claim C3. With an interceptor that defines `register`, `intercept`
overwrites every existing tap with `register(tap)` unconditionally — in
particular an `undefined` return leaves `undefined` in the taps array —
whereas the registration-time fold `_runRegisterInterceptors` keeps the
descriptor when `register` returns `undefined`. -/
theorem intercept_register_overwrites (h : HookState) (it : Interceptor)
    (reg : JSVal → JSVal) (hreg : it.register = some reg) :
    (hookIntercept h it).taps = h.taps.map reg ∧
    (hookIntercept h it).interceptors = h.interceptors ++ [it] ∧
    (∀ k, k < h.taps.length → reg (h.taps.getD k .vundefined) = .vundefined →
      (hookIntercept h it).taps.getD k .vundefined = .vundefined) ∧
    (∀ d, reg d = .vundefined → runRegisterInterceptors [it] d = d) := by
  refine ⟨hookIntercept_taps h it reg hreg, hookIntercept_interceptors h it, ?_, ?_⟩
  · intro k hk hu
    rw [hookIntercept_taps h it reg hreg,
      List.getD_eq_getElem _ _ (by simpa using hk), List.getElem_map,
      ← List.getD_eq_getElem h.taps .vundefined hk]
    exact hu
  · intro d hd
    simp [runRegisterInterceptors, hreg, hd, isUndefined]

/-- Claim C5. For a promise-compiled series hook whose single sync tap
throws, the dispatcher never throws synchronously: the returned promise
rejects with the thrown error, and the rejection is routed through the
`_sync`/`_error` helper, which the generator emits exactly because the
orchestration used `onError` — so the rejection is deferred to a
microtask rather than thrown.  No run of the dispatcher can produce a
synchronous throw. -/
theorem promise_sync_leak_guard :
    (∀ e : JSVal, promiseDispatchOutcome [Except.error e] = .rejectedDeferred e) ∧
    promiseErrorHelperUsed ["sync"] = true ∧
    (∀ (runs : List TapRun) (e : JSVal), promiseDispatchOutcome runs ≠ .syncThrow e) := by
  refine ⟨fun e => rfl, rfl, ?_⟩
  intro runs e
  unfold promiseDispatchOutcome
  split <;> simp

/-- Claim C6, counterexample. With an options value that is neither a
string nor an object (here the number 42), the facade raises
"Missing name for tap" (because `Object.assign` flattens the number into
`{}`), while the direct `tap` raises "Invalid tap options": the two calls
are observationally different. -/
theorem withOptions_identity_counterexample :
    tapErrorOf (withOptionsTap (mkHook ["x"] .vundefined) (.vobj []) (.vnum 42) (.vfun 0)) =
      some .missingName ∧
    tapErrorOf (hookTapSync (mkHook ["x"] .vundefined) (.vnum 42) (.vfun 0)) =
      some .invalidOptions :=
  ⟨rfl, rfl⟩

theorem setField_of_not_mem (acc : List (String × JSVal)) (k : String) (v : JSVal)
    (hk : ∀ p ∈ acc, p.1 ≠ k) : setField acc k v = acc ++ [(k, v)] := by
  unfold setField
  rw [if_neg]
  intro hc
  rcases List.any_eq_true.mp hc with ⟨p, hp, hpk⟩
  exact hk p hp (by simpa using hpk)

theorem foldl_setField_of_nodup :
    ∀ (fs acc : List (String × JSVal)),
      ((acc ++ fs).map Prod.fst).Nodup →
      fs.foldl (fun a p => setField a p.1 p.2) acc = acc ++ fs
  | [], acc, _ => by simp
  | (k, v) :: fs, acc, hnd => by
    simp only [List.foldl_cons]
    have hk : ∀ p ∈ acc, p.1 ≠ k := by
      intro p hp hpk
      rw [List.map_append] at hnd
      have hdisj := (List.nodup_append.mp hnd).2.2
      have h1 : k ∈ acc.map Prod.fst := by
        rw [← hpk]
        exact List.mem_map_of_mem _ hp
      have h2 : k ∈ ((k, v) :: fs).map Prod.fst := by simp
      exact hdisj h1 h2
    rw [setField_of_not_mem acc k v hk]
    have hnd' : (((acc ++ [(k, v)]) ++ fs).map Prod.fst).Nodup := by
      rw [List.append_assoc]
      simpa using hnd
    rw [foldl_setField_of_nodup fs (acc ++ [(k, v)]) hnd']
    simp

/-- Claim C6, amended. With `defaults = {}` the facade and the direct
`tap` agree whenever the options value is a string or a plain object
(field keys duplicate-free, as JS objects are); for other options values
both calls fail, but with different errors (see the counterexample). -/
theorem withOptions_identity_roundtrip (h : HookState) (opts fn : JSVal)
    (hval : (∃ s, opts = .vstr s) ∨
      (∃ fs, opts = .vobj fs ∧ (fs.map Prod.fst).Nodup)) :
    withOptionsTap h (.vobj []) opts fn = hookTapSync h opts fn := by
  rcases hval with ⟨s, rfl⟩ | ⟨fs, rfl, hnd⟩
  · rfl
  · have hm : mergeTapOptions (.vobj []) (.vobj fs) = .vobj fs := by
      show JSVal.vobj (fs.foldl (fun a p => setField a p.1 p.2) []) = .vobj fs
      rw [foldl_setField_of_nodup fs [] (by simpa using hnd)]
      rfl
    unfold withOptionsTap
    rw [hm]

/-- Claim C4. For every valid registration, the descriptor handed to
`_insert` is the left fold of the interceptor list, in registration order,
over the normalized options (`{type, fn}` merged under the user options):
each interceptor with `register` replaces the running descriptor by its
return value unless that value is `undefined`, and interceptors without
`register` leave it unchanged. -/
theorem tap_register_fold (h : HookState) (type : String) (options fn : JSVal)
    (husable : tapOptionsUsable options = true) :
    hookTap h type options fn = .ok (hookInsert h
      (h.interceptors.foldl
        (fun d it =>
          match it.register with
          | none => d
          | some reg => if isUndefined (reg d) then d else reg d)
        (objAssign (.vobj [("type", .vstr type), ("fn", fn)]) [wrapStringOptions options]))) := by
  rw [hookTap_eq_of_usable h type options fn husable]
  rfl

/-- Claim C10. A registration that throws a usage error leaves the hook
exactly as it was: the state carried at the throw is the input state —
validation precedes the `Object.assign` merge, the interceptor fold and
`_insert` (which is what resets the dispatcher slots). -/
theorem failed_registration_atomic (h : HookState) (type : String) (options fn : JSVal)
    (e : TapError) (h' : HookState)
    (hth : hookTap h type options fn = .thrown e h') : h' = h := by
  by_cases hu : tapOptionsUsable options = true
  · rw [hookTap_eq_of_usable h type options fn hu] at hth
    exact absurd hth (by simp)
  · rw [hookTap_eq_of_unusable h type options fn (by simpa using hu)] at hth
    injection hth with h1 h2
    exact h2.symm

/-- Claim C8. Over every trace of public operations on a fresh hook, the
three dispatcher slots all hold their trampolines exactly when no
dispatcher has been synthesized since the last successful mutation (or
since construction, if none ever succeeded); and immediately after every
successful `tap*` or `intercept`, all three slots hold the trampolines
again. -/
theorem trampoline_invalidation (args : List String) (ops : List HookOp) :
    (allTrampoline (runOps args ops) ↔ synthSinceMutation ops = false) ∧
    (∀ (pre : List HookOp) (op : HookOp) (post : List HookOp),
      ops = pre ++ op :: post → isMutation op = true →
      allTrampoline (runOps args (pre ++ [op]))) := by
  refine ⟨runOps_trampoline_iff args ops, ?_⟩
  intro pre op post _ hm
  rw [runOps_append_one]
  cases op with
  | opTap t o f =>
      have hu : tapOptionsUsable o = true := hm
      have h1 := hookTap_eq_of_usable (runOps args pre) t o f hu
      simp [runOp, h1, tapStateOf, allTrampoline, hookInsert, resetCompilation]
  | opIntercept it =>
      have hs := hookIntercept_slots (runOps args pre) it
      exact ⟨hs.1, hs.2.1, hs.2.2⟩
  | opCall => exact absurd hm (by simp [isMutation])
  | opCallAsync => exact absurd hm (by simp [isMutation])
  | opPromise => exact absurd hm (by simp [isMutation])

/-- Claim C7, amended. The usage errors of `tap`/`tapAsync`/`tapPromise`:
"Invalid tap options" is raised exactly when the options value is neither
a string nor a (non-null) object; "Missing name for tap" exactly when the
(string-wrapped) `name` of the options is not a non-empty string; and a
*non-empty* string options value, or an object with a non-empty string
`name`, raises no usage error.  (The unamended claim promised no error for
*every* string; the empty string is the exception — see the
counterexample.) -/
theorem tap_error_contract (h : HookState) (type : String) (options fn : JSVal) :
    (tapErrorOf (hookTap h type options fn) = some .invalidOptions ↔
      ¬(jsTypeof options = "string" ∨
        (jsTypeof options = "object" ∧ isNull options = false))) ∧
    (tapErrorOf (hookTap h type options fn) = some .missingName ↔
      ((jsTypeof options = "string" ∨
        (jsTypeof options = "object" ∧ isNull options = false)) ∧
        validTapName (wrapStringOptions options) = false)) ∧
    (((∃ s, options = .vstr s ∧ s ≠ "") ∨
        (jsTypeof options = "object" ∧ isNull options = false ∧
          validTapName options = true)) →
      tapErrorOf (hookTap h type options fn) = none) := by
  by_cases hu : tapOptionsUsable options = true
  · rw [hookTap_eq_of_usable h type options fn hu]
    have hu' := hu
    simp only [tapOptionsUsable, Bool.and_eq_true, Bool.or_eq_true, beq_iff_eq,
      Bool.not_eq_true'] at hu'
    refine ⟨?_, ?_, fun _ => rfl⟩
    · simp [tapErrorOf, hu'.1]
    · simp [tapErrorOf, hu'.2]
  · have hu2 : tapOptionsUsable options = false := by simpa using hu
    rw [hookTap_eq_of_unusable h type options fn hu2]
    by_cases hA : jsTypeof options = "string" ∨
        (jsTypeof options = "object" ∧ isNull options = false)
    · have hAb : (jsTypeof options == "string" ||
          (jsTypeof options == "object" && !isNull options)) = true := by
        rcases hA with h1 | ⟨h2, h3⟩
        · simp [h1]
        · simp [h2, h3]
      have hV : validTapName (wrapStringOptions options) = false := by
        rw [tapOptionsUsable, hAb] at hu2
        simpa using hu2
      rw [if_pos hA]
      refine ⟨by simp [tapErrorOf, hA], by simp [tapErrorOf, hA, hV], ?_⟩
      intro hant
      exfalso
      rcases hant with ⟨s, rfl, hs⟩ | ⟨hobj, hnn, hv⟩
      · simp [validTapName, wrapStringOptions, getField] at hV
        exact hs hV
      · have hw : wrapStringOptions options = options := by
          cases options <;> simp_all [jsTypeof, isNull, wrapStringOptions]
        rw [hw, hv] at hV
        exact absurd hV (by simp)
    · rw [if_neg hA]
      refine ⟨by simp [tapErrorOf, hA], by simp [tapErrorOf, hA], ?_⟩
      intro hant
      exfalso
      apply hA
      rcases hant with ⟨s, rfl, _⟩ | ⟨hobj, hnn, _⟩
      · exact Or.inl rfl
      · exact Or.inr ⟨hobj, hnn⟩

/-- Claim C7, counterexample to the unamended final clause: the empty
string is a string options value, yet registration raises the
"Missing name for tap" usage error. -/
theorem tap_error_contract_counterexample :
    jsTypeof (JSVal.vstr "") = "string" ∧
    tapErrorOf (hookTap (mkHook ["x"] .vundefined) "sync" (.vstr "") (.vfun 0)) =
      some .missingName :=
  ⟨rfl, rfl⟩

/-! ## Witnesses: the claim theorems applied at concrete inputs -/

theorem before_ordering_insertion_time_witness :
    ∃ p, p ≤ ([JSVal.vobj [("name", JSVal.vstr "B")]] : List JSVal).length ∧
      hookInsertTaps [JSVal.vobj [("name", JSVal.vstr "B")]]
          (.vobj [("name", .vstr "C"), ("before", .vstr "B")]) =
        ([JSVal.vobj [("name", JSVal.vstr "B")]].take p) ++
          (JSVal.vobj [("name", .vstr "C"), ("before", .vstr "B")]) ::
            ([JSVal.vobj [("name", JSVal.vstr "B")]].drop p) ∧
      ∀ k, k < ([JSVal.vobj [("name", JSVal.vstr "B")]] : List JSVal).length →
        setHas [JSVal.vstr "B"]
          (getField ([JSVal.vobj [("name", JSVal.vstr "B")]].getD k .vundefined) "name") = true →
        p ≤ k :=
  before_ordering_insertion_time.1 [JSVal.vobj [("name", JSVal.vstr "B")]]
    (.vobj [("name", .vstr "C"), ("before", .vstr "B")]) [JSVal.vstr "B"]
    (by simp) rfl

theorem stage_ordering_fifo_witness :
    (([JSVal.vobj [("name", JSVal.vstr "p"), ("stage", JSVal.vnum 3)],
       JSVal.vobj [("name", JSVal.vstr "q")]].foldl hookInsertTaps []).Pairwise
        (fun a b => stageOrZero a ≤ stageOrZero b) ∧
     ∀ s : Int,
       ([JSVal.vobj [("name", JSVal.vstr "p"), ("stage", JSVal.vnum 3)],
         JSVal.vobj [("name", JSVal.vstr "q")]].foldl hookInsertTaps []).filter
           (fun t => decide (stageOrZero t = s)) =
         [JSVal.vobj [("name", JSVal.vstr "p"), ("stage", JSVal.vnum 3)],
          JSVal.vobj [("name", JSVal.vstr "q")]].filter
           (fun t => decide (stageOrZero t = s))) :=
  stage_ordering_fifo.1
    [JSVal.vobj [("name", JSVal.vstr "p"), ("stage", JSVal.vnum 3)],
     JSVal.vobj [("name", JSVal.vstr "q")]]
    (by
      intro it hit
      simp only [List.mem_cons, List.not_mem_nil, or_false] at hit
      rcases hit with rfl | rfl <;> rfl)

theorem intercept_register_overwrites_witness :
    (hookIntercept stageScenario ⟨some (fun _ => JSVal.vundefined)⟩).taps =
      stageScenario.taps.map (fun _ => JSVal.vundefined) :=
  (intercept_register_overwrites stageScenario ⟨some (fun _ => JSVal.vundefined)⟩
    (fun _ => JSVal.vundefined) rfl).1

theorem tap_register_fold_witness :
    hookTap (mkHook ["x"] .vundefined) "sync" (.vstr "W") (.vfun 9) =
      .ok (hookInsert (mkHook ["x"] .vundefined)
        ((mkHook ["x"] .vundefined).interceptors.foldl
          (fun d it =>
            match it.register with
            | none => d
            | some reg => if isUndefined (reg d) then d else reg d)
          (objAssign (.vobj [("type", .vstr "sync"), ("fn", .vfun 9)])
            [wrapStringOptions (.vstr "W")]))) :=
  tap_register_fold (mkHook ["x"] .vundefined) "sync" (.vstr "W") (.vfun 9) rfl

theorem promise_sync_leak_guard_witness :
    promiseDispatchOutcome [Except.error (JSVal.vstr "boom")] =
      .rejectedDeferred (JSVal.vstr "boom") :=
  promise_sync_leak_guard.1 (JSVal.vstr "boom")

theorem withOptions_identity_roundtrip_witness :
    withOptionsTap (mkHook ["x"] .vundefined) (.vobj [])
        (.vobj [("name", JSVal.vstr "Z"), ("stage", JSVal.vnum 2)]) (.vfun 4) =
      hookTapSync (mkHook ["x"] .vundefined)
        (.vobj [("name", JSVal.vstr "Z"), ("stage", JSVal.vnum 2)]) (.vfun 4) :=
  withOptions_identity_roundtrip (mkHook ["x"] .vundefined)
    (.vobj [("name", JSVal.vstr "Z"), ("stage", JSVal.vnum 2)]) (.vfun 4)
    (Or.inr ⟨[("name", JSVal.vstr "Z"), ("stage", JSVal.vnum 2)], rfl, by simp⟩)

theorem tap_error_contract_witness :
    tapErrorOf (hookTap (mkHook ["x"] .vundefined) "sync" (.vbool true) (.vfun 0)) =
      some .invalidOptions :=
  (tap_error_contract (mkHook ["x"] .vundefined) "sync" (.vbool true) (.vfun 0)).1.mpr
    (by simp [jsTypeof, isNull])

theorem trampoline_invalidation_witness :
    allTrampoline (runOps ["x"] ([HookOp.opCall] ++ [HookOp.opIntercept ⟨none⟩])) :=
  (trampoline_invalidation ["x"] ([HookOp.opCall] ++ [HookOp.opIntercept ⟨none⟩])).2
    [HookOp.opCall] (HookOp.opIntercept ⟨none⟩) [] rfl rfl

theorem failed_registration_atomic_witness :
    hookTap (mkHook ["x"] .vundefined) "sync" (.vnum 7) (.vfun 0) =
      .thrown .invalidOptions (mkHook ["x"] .vundefined) ∧
    mkHook ["x"] JSVal.vundefined = mkHook ["x"] JSVal.vundefined :=
  ⟨rfl, failed_registration_atomic (mkHook ["x"] .vundefined) "sync" (.vnum 7) (.vfun 0)
    .invalidOptions (mkHook ["x"] .vundefined) rfl⟩

end Tapable
